import Mathlib

/-!
Verification of the fragment-composition core of myatis-boost
(`src/core/SqlComposer.ts`) and of the spec-described LRU cache.

Strings are modelled as `List Char`.  The JavaScript regexes of
`SqlComposer.ts` are deterministic up to bounded backtracking, and are
translated as explicit character-level scanners; `String.prototype.replace`
with a string pattern is translated including the `$`-substitution rules of
GetSubstitution.  The genuinely recursive `resolveIncludes` is modelled with
an explicit fuel parameter (outer result `none` means the recursion did not
finish within the given fuel).
-/

namespace Myatis

/-- Apostrophe character (code 39). -/
def apos : Char := Char.ofNat 39

/-- Backquote character (code 96). -/
def btick : Char := Char.ofNat 96

/-- JavaScript `\s` whitespace class (the ASCII members plus NBSP), as used
by the regexes and by `String.prototype.trim`. -/
def jsSpace (c : Char) : Bool :=
  c = ' ' || c = '\t' || c = '\n' || c = '\r' || c = '\x0b' || c = '\x0c' || c = '\u00A0'

/-- The `["']` character class of the regexes. -/
def isQuote (c : Char) : Bool := c = '"' || c = apos

/-- ASCII case folding code: uppercase letters are shifted to the code of the
lowercase letter, every other character keeps its own code. -/
def lowerCode (c : Char) : Nat :=
  if 65 ≤ c.toNat ∧ c.toNat ≤ 90 then c.toNat + 32 else c.toNat

/-- Case-insensitive character comparison, as produced by the `i` regex flag
on the ASCII patterns of `SqlComposer.ts`. -/
def lowerEq (a b : Char) : Bool := lowerCode a == lowerCode b

/-- Match a literal pattern case-insensitively at the head of the input,
returning the consumed characters (in their original case) and the rest. -/
def litCI : List Char → List Char → Option (List Char × List Char)
  | [], cs => some ([], cs)
  | _ :: _, [] => none
  | p :: ps, c :: cs =>
    if lowerEq c p then
      match litCI ps cs with
      | some (tk, rest) => some (c :: tk, rest)
      | none => none
    else none

/-- Case-sensitive list prefix test (used by the string-search part of
`String.prototype.replace` and `indexOf`). -/
def listStartsWith : List Char → List Char → Bool
  | [], _ => true
  | _ :: _, [] => false
  | p :: ps, c :: cs => p == c && listStartsWith ps cs

/-- Split a string at the first occurrence of `t`, JavaScript `indexOf`
semantics: `some (before, after)` with the input equal to
`before ++ t ++ after`, and no occurrence of `t` starting inside `before`. -/
def splitFirstOcc (t : List Char) (s : List Char) : Option (List Char × List Char) :=
  if listStartsWith t s then some ([], s.drop t.length)
  else
    match s with
    | [] => none
    | c :: cs =>
      match splitFirstOcc t cs with
      | some (b, a) => some (c :: b, a)
      | none => none

/-- Case-insensitive list prefix test (for the case-insensitive lazy body
searches `<\/sql>` and `<\/\1>` under the `i` flag). -/
def listStartsWithCI : List Char → List Char → Bool
  | [], _ => true
  | _ :: _, [] => false
  | p :: ps, c :: cs => lowerEq c p && listStartsWithCI ps cs

/-- Split at the first case-insensitive occurrence of `t`. -/
def splitFirstOccCI (t : List Char) (s : List Char) : Option (List Char × List Char) :=
  if listStartsWithCI t s then some ([], s.drop t.length)
  else
    match s with
    | [] => none
    | c :: cs =>
      match splitFirstOccCI t cs with
      | some (b, a) => some (c :: b, a)
      | none => none

/-- Number of newline characters in a string. -/
def countNl (cs : List Char) : Nat := (cs.filter (fun c => c = '\n')).length

/-- JavaScript `String.prototype.trim`. -/
def trimJS (cs : List Char) : List Char :=
  ((cs.dropWhile jsSpace).reverse.dropWhile jsSpace).reverse

/-- Literal `<!--`. -/
def commentOpen : List Char := ['<', '!', '-', '-']

/-- Literal `-->`. -/
def commentClose : List Char := ['-', '-', '>']

/-- One step of `removeXmlComments` per unit of fuel: find the leftmost
`<!--`, then the first `-->` after it (the lazy `[\s\S]*?`), and replace the
whole comment by one newline per newline it contained; repeat on the rest
(the `g` flag).  Mirrors `removeXmlComments` in `SqlComposer.ts`; a fuel of
`length + 1` always suffices since every step consumes the comment opener. -/
def removeXmlCommentsF : Nat → List Char → List Char
  | 0, cs => cs
  | n + 1, cs =>
    match splitFirstOcc commentOpen cs with
    | none => cs
    | some (b1, a1) =>
      match splitFirstOcc commentClose a1 with
      | none => cs
      | some (b2, a2) =>
        b1 ++ List.replicate (countNl b2) '\n' ++ removeXmlCommentsF n a2

/-- `removeXmlComments` from `SqlComposer.ts` (the empty-content early return
coincides with the scan on the empty string). -/
def removeXmlComments (cs : List Char) : List Char :=
  removeXmlCommentsF (cs.length + 1) cs

/-- Literal `<include`. -/
def includeLit : List Char := ['<', 'i', 'n', 'c', 'l', 'u', 'd', 'e']

/-- Literal `refid`. -/
def refidLit : List Char := ['r', 'e', 'f', 'i', 'd']

/-- Attempt the regex `/<include\s+refid\s*=\s*["']([^"']+)["']\s*\/?>/i` at
the head of the input.  The pattern is deterministic: each `\s*`/`\s+` run
and the `[^"']+` id run are maximal munches bounded by characters outside
their class, so the regex engine's backtracking never produces a different
match.  Returns `(matched tag, refid, rest)`. -/
def matchIncludeAt (cs : List Char) : Option (List Char × List Char × List Char) :=
  match litCI includeLit cs with
  | none => none
  | some (t1, r1) =>
    let sp1 := r1.takeWhile jsSpace
    let r2 := r1.dropWhile jsSpace
    if sp1 = [] then none else
    match litCI refidLit r2 with
    | none => none
    | some (t2, r3) =>
      let sp2 := r3.takeWhile jsSpace
      let r4 := r3.dropWhile jsSpace
      match r4 with
      | '=' :: r5 =>
        let sp3 := r5.takeWhile jsSpace
        let r6 := r5.dropWhile jsSpace
        match r6 with
        | q1 :: r7 =>
          if isQuote q1 then
            let idRun := r7.takeWhile (fun c => !(isQuote c))
            let r8 := r7.dropWhile (fun c => !(isQuote c))
            if idRun = [] then none else
            match r8 with
            | q2 :: r9 =>
              if isQuote q2 then
                let sp4 := r9.takeWhile jsSpace
                let r10 := r9.dropWhile jsSpace
                match r10 with
                | '/' :: '>' :: rest =>
                  some (t1 ++ sp1 ++ t2 ++ sp2 ++ '=' :: sp3 ++ q1 :: idRun ++ q2 :: sp4 ++ ['/', '>'],
                    idRun, rest)
                | '>' :: rest =>
                  some (t1 ++ sp1 ++ t2 ++ sp2 ++ '=' :: sp3 ++ q1 :: idRun ++ q2 :: sp4 ++ ['>'],
                    idRun, rest)
                | _ => none
              else none
            | [] => none
          else none
        | _ => none
      | _ => none

/-- Leftmost match of the include regex: split the input as
`pre ++ tag ++ rest` where `tag` is the first include marker, also giving the
captured `refid`.  Mirrors one `includeRegex.exec` step. -/
def findSplit : List Char → Option (List Char × List Char × List Char × List Char)
  | [] => none
  | c :: cs =>
    match matchIncludeAt (c :: cs) with
    | some (tag, refid, rest) => some ([], tag, refid, rest)
    | none =>
      match findSplit cs with
      | some (pre, tag, refid, rest) => some (c :: pre, tag, refid, rest)
      | none => none

/-- All matches of the global include regex in scan order (each `exec`
continues after the end of the previous match).  The fuel `length + 1` used
at call sites always suffices since each match consumes at least the `<`. -/
def scanAllF : Nat → List Char → List (List Char × List Char)
  | 0, _ => []
  | n + 1, cs =>
    match findSplit cs with
    | none => []
    | some (_, tag, refid, rest) => (tag, refid) :: scanAllF n rest

/-- The text of an include marker `<include refid="ID"/>` as it appears in
the concrete scenarios. -/
def includeMarker (refid : List Char) : List Char :=
  includeLit ++ ' ' :: refidLit ++ '=' :: '"' :: refid ++ '"' :: ['/', '>']

/-- An include marker without its leading `<` (its head-tail decomposition). -/
def markerTail (refid : List Char) : List Char :=
  ['i', 'n', 'c', 'l', 'u', 'd', 'e'] ++ ' ' :: refidLit ++ '=' :: '"' :: refid ++ '"' :: ['/', '>']

/-- The circular-reference annotation `/* Circular reference detected: ID */`
spliced in by `resolveIncludes`. -/
def circAnnot (refid : List Char) : List Char :=
  ['/', '*', ' ', 'C', 'i', 'r', 'c', 'u', 'l', 'a', 'r', ' ',
   'r', 'e', 'f', 'e', 'r', 'e', 'n', 'c', 'e', ' ',
   'd', 'e', 't', 'e', 'c', 't', 'e', 'd', ':', ' '] ++ refid ++ [' ', '*', '/']

/-- The missing-fragment annotation `/* Fragment not found: ID */`. -/
def notFoundAnnot (refid : List Char) : List Char :=
  ['/', '*', ' ', 'F', 'r', 'a', 'g', 'm', 'e', 'n', 't', ' ',
   'n', 'o', 't', ' ', 'f', 'o', 'u', 'n', 'd', ':', ' '] ++ refid ++ [' ', '*', '/']

/-- Lookup in the insertion-ordered association list modelling a JS `Map`. -/
def mapGet (m : List (List Char × List Char)) (k : List Char) : Option (List Char) :=
  match m with
  | [] => none
  | (a, b) :: rest => if a = k then some b else mapGet rest k

/-- JS `Map.set`: update the value in place if the key exists, else append. -/
def mapSet (m : List (List Char × List Char)) (k v : List Char) :
    List (List Char × List Char) :=
  match m with
  | [] => [(k, v)]
  | (a, b) :: rest => if a = k then (a, v) :: rest else (a, b) :: mapSet rest k v

/-- Build a JS `Map` from a list of `set` calls in order. -/
def buildMap (l : List (List Char × List Char)) : List (List Char × List Char) :=
  l.foldl (fun m p => mapSet m p.1 p.2) []

/-- Literal `<sql`. -/
def sqlLit : List Char := ['<', 's', 'q', 'l']

/-- Literal `id`. -/
def idLit : List Char := ['i', 'd']

/-- Literal `</sql>`. -/
def sqlCloseLit : List Char := ['<', '/', 's', 'q', 'l', '>']

/-- Attempt the regex `/<sql\s+id\s*=\s*["']([^"']+)["'][^>]*>([\s\S]*?)<\/sql>/i`
at the head of the input, returning `(id, raw body, rest after the close)`. -/
def matchSqlAt (cs : List Char) : Option (List Char × List Char × List Char) :=
  match litCI sqlLit cs with
  | none => none
  | some (_, r1) =>
    if r1.takeWhile jsSpace = [] then none else
    let r2 := r1.dropWhile jsSpace
    match litCI idLit r2 with
    | none => none
    | some (_, r3) =>
      let r4 := r3.dropWhile jsSpace
      match r4 with
      | '=' :: r5 =>
        let r6 := r5.dropWhile jsSpace
        match r6 with
        | q1 :: r7 =>
          if isQuote q1 then
            let idRun := r7.takeWhile (fun c => !(isQuote c))
            let r8 := r7.dropWhile (fun c => !(isQuote c))
            if idRun = [] then none else
            match r8 with
            | q2 :: r9 =>
              if isQuote q2 then
                match r9.dropWhile (fun c => c != '>') with
                | '>' :: r10 =>
                  match splitFirstOccCI sqlCloseLit r10 with
                  | none => none
                  | some (body, rest) => some (idRun, body, rest)
                | _ => none
              else none
            | [] => none
          else none
        | _ => none
      | _ => none

/-- Leftmost match of the `<sql>` fragment regex. -/
def findSqlFrag : List Char → Option (List Char × List Char × List Char)
  | [] => none
  | c :: cs =>
    match matchSqlAt (c :: cs) with
    | some r => some r
    | none => findSqlFrag cs

/-- All `<sql id=...>` declarations in scan order, with trimmed contents,
mirroring the `while (sqlFragmentRegex.exec...)` loop. -/
def scanSqlDeclsF : Nat → List Char → List (List Char × List Char)
  | 0, _ => []
  | n + 1, cs =>
    match findSqlFrag cs with
    | none => []
    | some (i, body, rest) => (i, trimJS body) :: scanSqlDeclsF n rest

/-- Fragment declarations of a document in order (comments removed first). -/
def scanSqlDecls (content : List Char) : List (List Char × List Char) :=
  scanSqlDeclsF (content.length + 1) (removeXmlComments content)

/-- `extractSqlFragments` from `SqlComposer.ts`: the JS `Map` produced by
`fragments.set(id, content)` over all declarations. -/
def extractSqlFragments (content : List Char) : List (List Char × List Char) :=
  buildMap (scanSqlDecls content)

/-- The four statement tag names of the alternation
`(select|insert|update|delete)`, in the order the regex engine tries them. -/
def stmtTags : List (List Char) :=
  [['s', 'e', 'l', 'e', 'c', 't'], ['i', 'n', 's', 'e', 'r', 't'],
   ['u', 'p', 'd', 'a', 't', 'e'], ['d', 'e', 'l', 'e', 't', 'e']]

/-- Match `id\s*=\s*["']ID["']` at the head (ID literally, case-insensitively:
`escapeRegex` makes the interpolated statement id a literal pattern). -/
def matchIdAttr (statementId : List Char) (cs : List Char) : Option (List Char) :=
  match litCI idLit cs with
  | none => none
  | some (_, r1) =>
    match r1.dropWhile jsSpace with
    | '=' :: r2 =>
      match r2.dropWhile jsSpace with
      | q1 :: r3 =>
        if isQuote q1 then
          match litCI statementId r3 with
          | none => none
          | some (_, r4) =>
            match r4 with
            | q2 :: r5 => if isQuote q2 then some r5 else none
            | [] => none
        else none
      | [] => none
    | _ => none

/-- Candidate suffixes for the greedy `[^>]*` before the id attribute: the
input itself, then the input after skipping one non-`>` character, and so on
up to (not past) the first `>`.  Listed in skip order; the caller reverses to
get the regex engine's greedy longest-skip-first order. -/
def skipCandidates : List Char → List (List Char)
  | [] => [[]]
  | c :: cs => (c :: cs) :: (if c = '>' then [] else skipCandidates cs)

/-- Try each candidate start for the id attribute; on a hit, skip the second
`[^>]*` to the closing `>` of the open tag and take the lazy body up to the
first case-insensitive `</TAG>` (the `<\/\1>` backreference). -/
def tryCandidates (statementId closeTag : List Char) :
    List (List Char) → Option (List Char)
  | [] => none
  | cand :: more =>
    match matchIdAttr statementId cand with
    | some r =>
      match r.dropWhile (fun c => c != '>') with
      | '>' :: afterOpen =>
        match splitFirstOccCI closeTag afterOpen with
        | some (body, _) => some body
        | none => tryCandidates statementId closeTag more
      | _ => tryCandidates statementId closeTag more
    | none => tryCandidates statementId closeTag more

/-- Try the tag-name alternation at a position just after a `<`. -/
def tryTags (statementId : List Char) : List (List Char) → List Char → Option (List Char)
  | [], _ => none
  | tg :: more, r1 =>
    match litCI tg r1 with
    | some (_, r2) =>
      if r2.takeWhile jsSpace = [] then tryTags statementId more r1
      else
        match tryCandidates statementId ('<' :: '/' :: tg ++ ['>'])
            ((skipCandidates (r2.dropWhile jsSpace)).reverse) with
        | some body => some body
        | none => tryTags statementId more r1
    | none => tryTags statementId more r1

/-- Attempt the statement regex at the head of the input. -/
def matchStmtAt (statementId : List Char) (cs : List Char) : Option (List Char) :=
  match cs with
  | '<' :: r1 => tryTags statementId stmtTags r1
  | _ => none

/-- Leftmost match of the statement regex (`String.prototype.match` without
the `g` flag). -/
def findStmt (statementId : List Char) : List Char → Option (List Char)
  | [] => none
  | c :: cs =>
    match matchStmtAt statementId (c :: cs) with
    | some body => some body
    | none => findStmt statementId cs

/-- `extractStatementContent` from `SqlComposer.ts`: the trimmed body of the
first `select|insert|update|delete` element with the given id, or `none`. -/
def extractStatementContent (content statementId : List Char) : Option (List Char) :=
  (findStmt statementId (removeXmlComments content)).map trimJS

/-- The GetSubstitution processing that `String.prototype.replace` applies to
a replacement string: `$$`, `$&`, dollar-backquote and dollar-apostrophe are
special (there are no capture groups for a string search pattern). -/
def getSubstitution (matched before after : List Char) : List Char → List Char
  | [] => []
  | [c] => [c]
  | c :: d :: r =>
    if c = '$' then
      if d = '$' then '$' :: getSubstitution matched before after r
      else if d = '&' then matched ++ getSubstitution matched before after r
      else if d = btick then before ++ getSubstitution matched before after r
      else if d = apos then after ++ getSubstitution matched before after r
      else '$' :: getSubstitution matched before after (d :: r)
    else c :: getSubstitution matched before after (d :: r)

/-- `s.replace(t, repl)` with string arguments: replace the first occurrence
of `t` in `s` by the GetSubstitution-processed `repl`; `s` unchanged if `t`
does not occur. -/
def replaceFirstJS (s t repl : List Char) : List Char :=
  match splitFirstOcc t s with
  | none => s
  | some (b, a) => b ++ getSubstitution t b a repl ++ a

/-- Substring test (used to state that an annotation is present in a result). -/
def containsSub (t s : List Char) : Bool := (splitFirstOcc t s).isSome

/-- The body of the `while ((match = includeRegex.exec(sql)))` loop of
`resolveIncludes`: process the matches found in the original `sql` in order,
editing `resolved` by first-occurrence replacement.  Per match: a visited
refid becomes a circular-reference annotation; a missing or empty fragment
(`if (fragmentContent)` is falsy on the empty string) becomes a not-found
annotation; otherwise the recursively expanded fragment text is spliced in
via `expand` (the recursion with the extended visited set). -/
def processMatches (expand : List Char → List Char → Option (List Char))
    (frags : List (List Char × List Char)) (visited : List (List Char)) :
    List (List Char × List Char) → List Char → Option (List Char)
  | [], resolved => some resolved
  | (tag, refid) :: ms, resolved =>
    if refid ∈ visited then
      processMatches expand frags visited ms (replaceFirstJS resolved tag (circAnnot refid))
    else
      if (mapGet frags refid).getD [] = [] then
        processMatches expand frags visited ms (replaceFirstJS resolved tag (notFoundAnnot refid))
      else
        match expand refid ((mapGet frags refid).getD []) with
        | none => none
        | some e => processMatches expand frags visited ms (replaceFirstJS resolved tag e)

/-- One level of `resolveIncludes`, parameterized by the function used for
recursive calls: if the input has no include marker (`hasIncludes` stays
false) return it unchanged; otherwise run the replacement pass, and if the
result still matches the include regex (newly exposed includes), re-run on it
with the same visited set, else return it. -/
def resolveStep
    (rec : List (List Char × List Char) → List (List Char) → List Char → Option (List Char))
    (frags : List (List Char × List Char)) (visited : List (List Char))
    (sql : List Char) : Option (List Char) :=
  match findSplit sql with
  | none => some sql
  | some _ =>
    match processMatches (fun refid c => rec frags (refid :: visited) c)
        frags visited (scanAllF (sql.length + 1) sql) sql with
    | none => none
    | some resolved =>
      if (findSplit resolved).isSome then rec frags visited resolved
      else some resolved

/-- `resolveIncludes` from `SqlComposer.ts`, with fuel bounding the recursion
depth (both the per-fragment recursion and the re-pass on newly exposed
includes); `none` means the recursion did not finish within the fuel. -/
def resolveIncludesF :
    Nat → List (List Char × List Char) → List (List Char) → List Char → Option (List Char)
  | 0 => fun _ _ _ => none
  | n + 1 => resolveStep (resolveIncludesF n)

/-- `composeSql` from `SqlComposer.ts` applied to already-read document
content.  Outer `none` is fuel exhaustion; `some none` is the JS `null`
result (statement not found, or its body empty — `if (!statementContent)`);
`some (some s)` is a returned string. -/
def composeSql (fuel : Nat) (content statementId : List Char) :
    Option (Option (List Char)) :=
  match extractStatementContent content statementId with
  | none => some none
  | some stmt =>
    if stmt = [] then some none
    else (resolveIncludesF fuel (extractSqlFragments content) [] stmt).map some

/-- `readFile` from `src/utils/fileUtils.ts`: reading a file yields its text,
and any filesystem error is caught and turned into the empty string. -/
def readFile (result : Option (List Char)) : List Char := result.getD []

/-- `composeSql` on a file-read outcome (`none` = the read failed). -/
def composeSqlFromFile (fuel : Nat) (fileResult : Option (List Char))
    (statementId : List Char) : Option (Option (List Char)) :=
  composeSql fuel (readFile fileResult) statementId

/-- A character that cannot interfere with the marker regex or with
replacement processing: not a quote, not `<`, not `$`. -/
def plainChar (x : Char) : Prop := x ≠ '"' ∧ x ≠ apos ∧ x ≠ '<' ∧ x ≠ '$'

/-- A fragment id made of plain characters only (every id extracted from a
document already contains no quotes; plainness additionally rules out the
splicing characters exhibited by the counterexamples). -/
def plainId (c : List Char) : Prop := c ≠ [] ∧ ∀ x ∈ c, plainChar x

/-- Text with no `<` at all (hence no include marker can start in it). -/
def noLt (s : List Char) : Prop := ∀ x ∈ s, x ≠ '<'

instance (x : Char) : Decidable (plainChar x) := by
  unfold plainChar
  infer_instance

instance (c : List Char) : Decidable (plainId c) := by
  unfold plainId
  infer_instance

instance (s : List Char) : Decidable (noLt s) := by
  unfold noLt
  infer_instance

/-- Modelled from the spec: the generic fixed-capacity LRU cache of §4.1.
Its implementation (`FileMapper.ts`) is not under `src/` — only the unit-test
stubs and the design documents reference it.  State is the entry list in
most-recently-used-first order; `put` inserts or updates and promotes, then
evicts beyond `capacity` (a capacity of zero evicts every entry at once). -/
structure LRUCache (K V : Type) where
  capacity : Nat
  entries : List (K × V)

/-- Modelled from the spec: an empty cache of the given capacity. -/
def LRUCache.empty (K V : Type) (cap : Nat) : LRUCache K V := ⟨cap, []⟩

/-- Modelled from the spec: `put` inserts or updates a key, marks it
most-recently-used, and evicts the least-recently-used entries beyond the
capacity. -/
def LRUCache.put {K V : Type} [DecidableEq K] (c : LRUCache K V) (k : K) (v : V) :
    LRUCache K V :=
  ⟨c.capacity, ((k, v) :: c.entries.filter (fun p => decide (p.1 ≠ k))).take c.capacity⟩

/-- Modelled from the spec: `get` returns the value and promotes the entry
to most-recently-used. -/
def LRUCache.get {K V : Type} [DecidableEq K] (c : LRUCache K V) (k : K) :
    Option V × LRUCache K V :=
  match c.entries.find? (fun p => decide (p.1 = k)) with
  | none => (none, c)
  | some (_, v) =>
    (some v, ⟨c.capacity, (k, v) :: c.entries.filter (fun p => decide (p.1 ≠ k))⟩)

/-- Modelled from the spec: membership lookup without promotion (used to
state absence/presence after eviction). -/
def LRUCache.getVal {K V : Type} [DecidableEq K] (c : LRUCache K V) (k : K) : Option V :=
  (c.entries.find? (fun p => decide (p.1 = k))).map (fun p => p.2)

/-- Modelled from the spec: `size()`. -/
def LRUCache.size {K V : Type} (c : LRUCache K V) : Nat := c.entries.length

/-- Insert a list of keys in order with values given by `val`. -/
def LRUCache.putAll {K V : Type} [DecidableEq K] (c : LRUCache K V) (val : K → V)
    (ks : List K) : LRUCache K V :=
  ks.foldl (fun acc k => acc.put k (val k)) c

/-- Document for the C5 scenario: fragments `A`, `B` and statement `S`. -/
def docNested : List Char :=
  ("<sql id=\"A\">x, y</sql><sql id=\"B\"><include refid=\"A\"/>, z</sql><select id=\"S\">select <include refid=\"B\"/> from t</select>").data

/-- Counterexample document for C1: fragment `c` references itself (a cycle
of length 1), and the statement's body wraps the include marker for `c` in
text that splices with the circular-reference annotation; a second fragment
is declared whose id is exactly the annotation text. -/
def docCircSplice : List Char :=
  ("<sql id=\"c\"><include refid=\"c\"/></sql><sql id=\"/* Circular reference detected: c */\">BOOM</sql><select id=\"s\"><include refid=\"<include refid=\"c\"/>\"/></select>").data

/-- Counterexample document for C2: the statement includes the undeclared
fragment `m`, wrapped in text that splices with the not-found annotation; a
fragment is declared whose id is exactly the annotation text. -/
def docNfSplice : List Char :=
  ("<sql id=\"/* Fragment not found: m */\">BOOM</sql><select id=\"s\"><include refid=\"<include refid=\"m\"/>\"/></select>").data

/-- Counterexample document for C4: fragment `a` contains `$$`, which the
`String.prototype.replace` substitution rules collapse to a single `$`. -/
def docDollar : List Char :=
  ("<sql id=\"a\">a $$ b</sql><select id=\"s\"><include refid=\"a\"/></select>").data

/-- Counterexample document for C10: statement `s` exists but has an empty
body, so `composeSql` returns `null` (`if (!statementContent)`). -/
def docEmptyBody : List Char := ("<select id=\"s\"></select>").data

/-- Document with a duplicated fragment id for the C7 witness scenario. -/
def docDupIds : List Char :=
  ("<sql id=\"a\">first</sql><sql id=\"a\">second</sql><sql id=\"b\">other</sql>").data

/-- Document for the C3/C10 witnesses: one statement without inclusions. -/
def docPlain : List Char :=
  ("<select id=\"s\">select 1 from t</select>").data

/-- Counterexample document for C3: the only statement's id is `s`, but the
text `id="x"` occurs inside the attribute `aid="x"` of its open tag. -/
def docAid : List Char := ("<select aid=\"x\" id=\"s\">B</select>").data

/-- Read the attribute list of an open tag as XML-style `name="value"` pairs
(a name is a maximal run of characters that are not whitespace, `=`, `>`,
`/` or a quote) and return the value of the attribute named `id`, if any.
Written from the claim's words ("the id of a select/insert/update/delete
statement"), not from the code: it respects attribute-name boundaries, which
the code's `[^>]*id` regex does not. -/
def attrIdValue : Nat → List Char → Option (List Char)
  | 0, _ => none
  | n + 1, cs =>
    let r := cs.dropWhile jsSpace
    match r with
    | [] => none
    | '>' :: _ => none
    | '/' :: _ => none
    | _ =>
      let pnm := fun (x : Char) => !(jsSpace x) && x != '=' && x != '>' && x != '/' && !(isQuote x)
      let nm := r.takeWhile pnm
      let r1 := (r.dropWhile pnm).dropWhile jsSpace
      match r1 with
      | '=' :: r2 =>
        match r2.dropWhile jsSpace with
        | q :: r3 =>
          if isQuote q then
            let v := r3.takeWhile (fun x => x != q)
            let r4 := (r3.dropWhile (fun x => x != q)).drop 1
            if nm = idLit then some v else attrIdValue n r4
          else none
        | [] => none
      | _ => none

/-- Scan for `select`/`insert`/`update`/`delete` open tags and collect their
`id` attribute values (fuel `length + 1` suffices: each step consumes one
character). -/
def declaredStatementIdsF : Nat → List Char → List (List Char)
  | 0, _ => []
  | n + 1, cs =>
    match cs with
    | [] => []
    | '<' :: r1 =>
      match stmtTags.findSome? (fun tg =>
        match litCI tg r1 with
        | some (_, r2) =>
          if (r2.takeWhile jsSpace).isEmpty then none else some (r2.dropWhile jsSpace)
        | none => none) with
      | some attrs =>
        match attrIdValue (attrs.length + 1) attrs with
        | some v => v :: declaredStatementIdsF n r1
        | none => declaredStatementIdsF n r1
      | none => declaredStatementIdsF n r1
    | _ :: r => declaredStatementIdsF n r

/-- The ids that occur as the id of a select/insert/update/delete statement
in a document — the C3 claim's own hypothesis, written from its words rather
than from the code's id-specific regex.  Used to state the C3
counterexample. -/
def declaredStatementIds (content : List Char) : List (List Char) :=
  declaredStatementIdsF (content.length + 1) (removeXmlComments content)

/-! ### Lemmas about the string primitives -/

theorem lowerEq_refl (c : Char) : lowerEq c c = true := by
  simp [lowerEq]

theorem lowerEq_lt {c : Char} (h : lowerEq c '<' = true) : c = '<' := by
  have h60 : lowerCode '<' = 60 := by decide
  simp only [lowerEq, h60, beq_iff_eq] at h
  unfold lowerCode at h
  split at h
  · omega
  · have h2 := Char.ofNat_toNat c
    rw [h] at h2
    have h3 : Char.ofNat 60 = '<' := by decide
    rw [h3] at h2
    exact h2.symm

theorem lowerEq_lt_false {c : Char} (h : c ≠ '<') : lowerEq c '<' = false := by
  cases hl : lowerEq c '<' with
  | false => rfl
  | true => exact absurd (lowerEq_lt hl) h

theorem listStartsWith_nil {t : List Char} (h : listStartsWith t [] = true) : t = [] := by
  cases t with
  | nil => rfl
  | cons p ps => simp [listStartsWith] at h

theorem listStartsWith_drop {t : List Char} :
    ∀ {s : List Char}, listStartsWith t s = true → t ++ s.drop t.length = s := by
  induction t with
  | nil => intro s _; simp
  | cons p ps ih =>
    intro s h
    cases s with
    | nil => simp [listStartsWith] at h
    | cons c cs =>
      simp only [listStartsWith, Bool.and_eq_true, beq_iff_eq] at h
      obtain ⟨h1, h2⟩ := h
      subst h1
      simpa using ih h2

theorem listStartsWith_self_append (t u : List Char) :
    listStartsWith t (t ++ u) = true := by
  induction t with
  | nil => rfl
  | cons p ps ih => simp [listStartsWith, ih]

theorem splitFirstOcc_eq {t : List Char} :
    ∀ {s b a : List Char}, splitFirstOcc t s = some (b, a) → s = b ++ t ++ a := by
  intro s
  induction s with
  | nil =>
    intro b a h
    rw [splitFirstOcc.eq_def] at h
    split at h
    · rename_i hsw
      have := listStartsWith_nil hsw
      subst this
      simp at h
      simp [h.1, h.2]
    · simp at h
  | cons c cs ih =>
    intro b a h
    rw [splitFirstOcc.eq_def] at h
    split at h
    · rename_i hsw
      simp at h
      obtain ⟨h1, h2⟩ := h
      subst h1
      subst h2
      have := listStartsWith_drop hsw
      simp [this]
    · rename_i hsw
      have h' : (match splitFirstOcc t cs with
          | some (b2, a2) => some (c :: b2, a2)
          | none => none) = some (b, a) := h
      cases hrec : splitFirstOcc t cs with
      | none =>
        rw [hrec] at h'
        simp at h'
      | some p =>
        obtain ⟨b2, a2⟩ := p
        rw [hrec] at h'
        simp at h'
        obtain ⟨h1, h2⟩ := h'
        subst h1
        subst h2
        have := ih hrec
        simp [this]

theorem splitFirstOcc_unique {h : Char} {t' : List Char} :
    ∀ {pre : List Char} (post : List Char), (∀ x ∈ pre, x ≠ h) →
      splitFirstOcc (h :: t') (pre ++ (h :: t') ++ post) = some (pre, post) := by
  intro pre
  induction pre with
  | nil =>
    intro post _
    rw [List.nil_append, splitFirstOcc.eq_def]
    have hsw : listStartsWith (h :: t') ((h :: t') ++ post) = true :=
      listStartsWith_self_append _ _
    rw [if_pos hsw]
    simp [List.drop_left]
  | cons y pre' ih =>
    intro post hpre
    have hy : h ≠ y := Ne.symm (hpre y (by simp))
    have hih := ih post (fun x hx => hpre x (by simp [hx]))
    simp only [List.cons_append] at hih
    rw [splitFirstOcc.eq_def]
    have hsw : listStartsWith (h :: t') (y :: (pre' ++ h :: (t' ++ post))) = false := by
      simp [listStartsWith, hy]
    rw [if_neg (by simp [hsw])]
    simp only [List.cons_append]
    rw [hih]

theorem splitFirstOcc_isSome {t : List Char} :
    ∀ {pre : List Char} (post : List Char),
      (splitFirstOcc t (pre ++ t ++ post)).isSome = true := by
  intro pre
  induction pre with
  | nil =>
    intro post
    rw [List.nil_append, splitFirstOcc.eq_def]
    rw [if_pos (listStartsWith_self_append _ _)]
    rfl
  | cons y pre' ih =>
    intro post
    rw [splitFirstOcc.eq_def]
    split
    · rfl
    · simp only [List.cons_append]
      cases h2 : splitFirstOcc t (pre' ++ t ++ post) with
      | none =>
        have h3 := ih post
        rw [h2] at h3
        simp at h3
      | some p =>
        obtain ⟨b2, a2⟩ := p
        simp [h2]

theorem getSubstitution_eq_self (matched before after : List Char) :
    ∀ {repl : List Char}, (∀ x ∈ repl, x ≠ '$') →
      getSubstitution matched before after repl = repl := by
  intro repl
  induction repl with
  | nil => intro _; rfl
  | cons c rest ih =>
    intro h
    have hc : c ≠ '$' := h c (by simp)
    cases rest with
    | nil => rfl
    | cons d r =>
      rw [getSubstitution, if_neg hc]
      have := ih (fun x hx => h x (by simp [hx]))
      rw [this]

theorem replaceFirstJS_unique {h : Char} {t' pre post repl : List Char}
    (hpre : ∀ x ∈ pre, x ≠ h) (hrepl : ∀ x ∈ repl, x ≠ '$') :
    replaceFirstJS (pre ++ (h :: t') ++ post) (h :: t') repl = pre ++ repl ++ post := by
  have hsp := @splitFirstOcc_unique h t' pre post hpre
  have hg : getSubstitution (h :: t') pre post repl = repl :=
    getSubstitution_eq_self _ _ _ hrepl
  show (match splitFirstOcc (h :: t') (pre ++ (h :: t') ++ post) with
    | none => pre ++ (h :: t') ++ post
    | some (b, a) => b ++ getSubstitution (h :: t') b a repl ++ a) = pre ++ repl ++ post
  rw [hsp]
  simp [hg]

theorem jsSpace_sp : jsSpace ' ' = true := by decide

theorem jsSpace_r : jsSpace 'r' = false := by decide

theorem jsSpace_eqc : jsSpace '=' = false := by decide

theorem jsSpace_dq : jsSpace '"' = false := by decide

theorem jsSpace_sl : jsSpace '/' = false := by decide

theorem isQuote_dq : isQuote '"' = true := by decide

theorem notQuote_dq : (!(isQuote '"')) = false := by decide

theorem takeWhile_append_all {p : Char → Bool} :
    ∀ {l : List Char} (r : List Char), (∀ x ∈ l, p x = true) →
      (l ++ r).takeWhile p = l ++ r.takeWhile p := by
  intro l
  induction l with
  | nil => intro r _; rfl
  | cons c cs ih =>
    intro r h
    simp only [List.cons_append, List.takeWhile_cons]
    rw [h c (by simp)]
    simp [ih r (fun x hx => h x (by simp [hx]))]

theorem dropWhile_append_all {p : Char → Bool} :
    ∀ {l : List Char} (r : List Char), (∀ x ∈ l, p x = true) →
      (l ++ r).dropWhile p = r.dropWhile p := by
  intro l
  induction l with
  | nil => intro r _; rfl
  | cons c cs ih =>
    intro r h
    simp only [List.cons_append, List.dropWhile_cons]
    rw [h c (by simp)]
    simp [ih r (fun x hx => h x (by simp [hx]))]

theorem matchIncludeAt_marker {c : List Char} (post : List Char) (hc : plainId c) :
    matchIncludeAt (includeMarker c ++ post) = some (includeMarker c, c, post) := by
  obtain ⟨hne, hall⟩ := hc
  have hq : ∀ x ∈ c, (!(isQuote x)) = true := by
    intro x hx
    obtain ⟨h1, h2, _, _⟩ := hall x hx
    simp [isQuote, h1, h2]
  have htw := @takeWhile_append_all (fun y => !(isQuote y)) c
    ('"' :: '/' :: '>' :: post) hq
  have hdw := @dropWhile_append_all (fun y => !(isQuote y)) c
    ('"' :: '/' :: '>' :: post) hq
  simp [matchIncludeAt, includeMarker, includeLit, refidLit, litCI, lowerEq_refl,
    List.takeWhile_cons, List.dropWhile_cons, jsSpace_sp, jsSpace_r, jsSpace_eqc,
    jsSpace_dq, jsSpace_sl, isQuote_dq, notQuote_dq, htw, hdw, hne]

theorem matchIncludeAt_not_lt {c : Char} (cs : List Char) (h : c ≠ '<') :
    matchIncludeAt (c :: cs) = none := by
  simp [matchIncludeAt, includeLit, litCI, lowerEq_lt_false h]

theorem findSplit_none {s : List Char} (h : noLt s) : findSplit s = none := by
  induction s with
  | nil => rfl
  | cons c cs ih =>
    have hc : c ≠ '<' := h c (by simp)
    have ih' := ih (fun x hx => h x (by simp [hx]))
    simp [findSplit, matchIncludeAt_not_lt cs hc, ih']

theorem findSplit_marker {c : List Char} (hc : plainId c) :
    ∀ {pre : List Char} (post : List Char), noLt pre →
      findSplit (pre ++ includeMarker c ++ post) = some (pre, includeMarker c, c, post) := by
  intro pre
  induction pre with
  | nil =>
    intro post _
    have hm := matchIncludeAt_marker post hc
    have e : includeMarker c ++ post =
        '<' :: 'i' :: 'n' :: 'c' :: 'l' :: 'u' :: 'd' :: 'e' :: ' ' ::
          (refidLit ++ '=' :: '"' :: (c ++ '"' :: '/' :: '>' :: post)) := by
      simp [includeMarker, includeLit]
    rw [List.nil_append, e]
    rw [e] at hm
    rw [findSplit, hm]
  | cons y pre' ih =>
    intro post hpre
    have hy : y ≠ '<' := hpre y (by simp)
    have ih' := ih post (fun x hx => hpre x (by simp [hx]))
    rw [List.append_assoc] at ih'
    simp [findSplit, matchIncludeAt_not_lt _ hy, ih']

theorem scanAllF_of_none {s : List Char} (h : findSplit s = none) :
    ∀ n, scanAllF n s = [] := by
  intro n
  cases n with
  | zero => rfl
  | succ m => simp [scanAllF, h]

theorem scanAllF_marker {c : List Char} (hc : plainId c) {pre post : List Char}
    (hpre : noLt pre) (hpost : noLt post) (n : Nat) :
    scanAllF (n + 1) (pre ++ includeMarker c ++ post) = [(includeMarker c, c)] := by
  have hf := findSplit_marker hc post hpre
  rw [List.append_assoc] at hf
  have hrest := scanAllF_of_none (findSplit_none hpost) n
  simp [scanAllF, hf, hrest]

theorem noLt_nil : noLt [] := by
  intro x hx
  simp at hx

theorem noLt_append {a b : List Char} (ha : noLt a) (hb : noLt b) : noLt (a ++ b) := by
  intro x hx
  rcases List.mem_append.mp hx with h | h
  · exact ha x h
  · exact hb x h

theorem avoid_append {litp lits c : List Char} {ch : Char}
    (hp : ch ∉ litp) (hs : ch ∉ lits) (hcm : ∀ x ∈ c, x ≠ ch) :
    ∀ x ∈ litp ++ c ++ lits, x ≠ ch := by
  intro x hx
  rcases List.mem_append.mp hx with h1 | h2
  · rcases List.mem_append.mp h1 with ha | hb
    · intro heq; subst heq; exact hp ha
    · exact hcm x hb
  · intro heq; subst heq; exact hs h2

theorem circAnnot_noLt {c : List Char} (h : ∀ x ∈ c, x ≠ '<') : noLt (circAnnot c) :=
  avoid_append (by decide) (by decide) h

theorem circAnnot_noDollar {c : List Char} (h : ∀ x ∈ c, x ≠ '$') :
    ∀ x ∈ circAnnot c, x ≠ '$' :=
  avoid_append (by decide) (by decide) h

theorem notFoundAnnot_noLt {c : List Char} (h : ∀ x ∈ c, x ≠ '<') :
    noLt (notFoundAnnot c) :=
  avoid_append (by decide) (by decide) h

theorem notFoundAnnot_noDollar {c : List Char} (h : ∀ x ∈ c, x ≠ '$') :
    ∀ x ∈ notFoundAnnot c, x ≠ '$' :=
  avoid_append (by decide) (by decide) h

theorem plainId_noLt {c : List Char} (hc : plainId c) : ∀ x ∈ c, x ≠ '<' :=
  fun x hx => (hc.2 x hx).2.2.1

theorem plainId_noDollar {c : List Char} (hc : plainId c) : ∀ x ∈ c, x ≠ '$' :=
  fun x hx => (hc.2 x hx).2.2.2

theorem includeMarker_cons (c : List Char) : includeMarker c = '<' :: markerTail c := by
  simp [includeMarker, includeLit, markerTail]

theorem includeMarker_ne_nil (c : List Char) : includeMarker c ≠ [] := by
  rw [includeMarker_cons]
  simp

theorem replaceFirstJS_marker {c pre post repl : List Char} (hpre : noLt pre)
    (hrepl : ∀ x ∈ repl, x ≠ '$') :
    replaceFirstJS (pre ++ includeMarker c ++ post) (includeMarker c) repl =
      pre ++ repl ++ post := by
  rw [includeMarker_cons]
  exact replaceFirstJS_unique hpre hrepl

theorem resolveIncludes_self_cycle {frags : List (List Char × List Char)}
    {c : List Char} (hc : plainId c) (visited : List (List Char)) (hv : c ∈ visited) :
    ∀ n, resolveIncludesF (n + 1) frags visited (includeMarker c) = some (circAnnot c) := by
  intro n
  have hf : findSplit (includeMarker c) = some ([], includeMarker c, c, []) := by
    simpa using findSplit_marker hc [] noLt_nil
  have hs : scanAllF ((includeMarker c).length + 1) (includeMarker c) =
      [(includeMarker c, c)] := by
    simpa using scanAllF_marker hc noLt_nil noLt_nil ((includeMarker c).length)
  have hr : replaceFirstJS (includeMarker c) (includeMarker c) (circAnnot c) =
      circAnnot c := by
    simpa using @replaceFirstJS_marker c [] [] (circAnnot c)
      noLt_nil (circAnnot_noDollar (plainId_noDollar hc))
  have hfin : findSplit (circAnnot c) = none :=
    findSplit_none (circAnnot_noLt (plainId_noLt hc))
  rw [resolveIncludesF]
  simp [resolveStep, hf, hs, processMatches, hv, hr, hfin]

theorem resolveIncludes_cycle_annot {frags : List (List Char × List Char)}
    {c pre post : List Char} (hc : plainId c) (hpre : noLt pre) (hpost : noLt post)
    (hfrag : mapGet frags c = some (includeMarker c)) :
    ∀ fuel, 2 ≤ fuel →
      resolveIncludesF fuel frags [] (pre ++ includeMarker c ++ post) =
        some (pre ++ circAnnot c ++ post) := by
  intro fuel hfuel
  obtain ⟨n, rfl⟩ : ∃ n, fuel = n + 2 := ⟨fuel - 2, by omega⟩
  have hf := findSplit_marker hc post hpre
  have hs := scanAllF_marker hc hpre hpost ((pre ++ includeMarker c ++ post).length)
  have hin := @resolveIncludes_self_cycle frags c hc [c] (by simp) n
  have hr := @replaceFirstJS_marker c pre post (circAnnot c)
    hpre (circAnnot_noDollar (plainId_noDollar hc))
  have hfin : findSplit (pre ++ circAnnot c ++ post) = none :=
    findSplit_none (noLt_append (noLt_append hpre (circAnnot_noLt (plainId_noLt hc))) hpost)
  simp only [List.append_assoc] at hf hr hfin ⊢
  simp only [List.append_assoc, List.length_append] at hs
  rw [resolveIncludesF]
  simp [resolveStep, hf, hs, processMatches, hfrag, includeMarker_ne_nil c, hin, hr, hfin]

theorem resolveIncludes_missing_annot {frags : List (List Char × List Char)}
    {m pre post : List Char} (hm : plainId m) (hpre : noLt pre) (hpost : noLt post)
    (hfrag : mapGet frags m = none) :
    ∀ fuel, 1 ≤ fuel →
      resolveIncludesF fuel frags [] (pre ++ includeMarker m ++ post) =
        some (pre ++ notFoundAnnot m ++ post) := by
  intro fuel hfuel
  obtain ⟨n, rfl⟩ : ∃ n, fuel = n + 1 := ⟨fuel - 1, by omega⟩
  have hf := findSplit_marker hm post hpre
  have hs := scanAllF_marker hm hpre hpost ((pre ++ includeMarker m ++ post).length)
  have hr := @replaceFirstJS_marker m pre post (notFoundAnnot m)
    hpre (notFoundAnnot_noDollar (plainId_noDollar hm))
  have hfin : findSplit (pre ++ notFoundAnnot m ++ post) = none :=
    findSplit_none
      (noLt_append (noLt_append hpre (notFoundAnnot_noLt (plainId_noLt hm))) hpost)
  simp only [List.append_assoc] at hf hr hfin ⊢
  simp only [List.append_assoc, List.length_append] at hs
  rw [resolveIncludesF]
  simp [resolveStep, hf, hs, processMatches, hfrag, hr, hfin]

theorem removeXmlCommentsF_countNl : ∀ (n : Nat) (cs : List Char),
    countNl (removeXmlCommentsF n cs) = countNl cs := by
  intro n
  induction n with
  | zero => intro cs; rfl
  | succ m ih =>
    intro cs
    rw [removeXmlCommentsF]
    cases h1 : splitFirstOcc commentOpen cs with
    | none => rfl
    | some p1 =>
      obtain ⟨b1, a1⟩ := p1
      cases h2 : splitFirstOcc commentClose a1 with
      | none => simp [h2]
      | some p2 =>
        obtain ⟨b2, a2⟩ := p2
        have e1 := splitFirstOcc_eq h1
        have e2 := splitFirstOcc_eq h2
        subst e2
        subst e1
        have hca : ∀ (u v : List Char), countNl (u ++ v) = countNl u + countNl v := by
          intro u v
          simp [countNl, List.filter_append]
        have hcr : ∀ (j : Nat), countNl (List.replicate j '\n') = j := by
          intro j
          simp [countNl, List.filter_replicate]
        have hopen : countNl commentOpen = 0 := by decide
        have hclose : countNl commentClose = 0 := by decide
        simp only [h2]
        simp [hca, hcr, hopen, hclose, ih a2]

theorem mapGet_mapSet (m : List (List Char × List Char)) (a v k : List Char) :
    mapGet (mapSet m a v) k = if a = k then some v else mapGet m k := by
  induction m with
  | nil => simp [mapSet, mapGet]
  | cons p rest ih =>
    obtain ⟨x, y⟩ := p
    by_cases hxa : x = a
    · subst hxa
      by_cases hxk : x = k
      · simp [mapSet, mapGet, hxk]
      · simp [mapSet, mapGet, hxk]
    · by_cases hxk : x = k
      · subst hxk
        have hak : a ≠ x := fun hh => hxa hh.symm
        simp [mapSet, mapGet, hxa, hak]
      · simp [mapSet, mapGet, hxa, hxk, ih]

theorem mapGet_append (l1 l2 : List (List Char × List Char)) (k : List Char) :
    mapGet (l1 ++ l2) k = (mapGet l1 k).or (mapGet l2 k) := by
  induction l1 with
  | nil => simp [mapGet]
  | cons p rest ih =>
    obtain ⟨x, y⟩ := p
    by_cases hk : x = k
    · subst hk
      simp [mapGet]
    · simp [mapGet, hk, ih]

theorem mapGet_buildMap_loop :
    ∀ (l : List (List Char × List Char)) (m : List (List Char × List Char)) (k : List Char),
      mapGet (l.foldl (fun acc p => mapSet acc p.1 p.2) m) k =
        (mapGet l.reverse k).or (mapGet m k) := by
  intro l
  induction l with
  | nil => intro m k; simp [mapGet]
  | cons p rest ih =>
    intro m k
    obtain ⟨x, y⟩ := p
    rw [List.foldl_cons, ih, List.reverse_cons, mapGet_append, mapGet_mapSet]
    cases hrev : mapGet rest.reverse k with
    | some v => simp [Option.or]
    | none =>
      by_cases hk : x = k
      · subst hk
        simp [Option.or, mapGet]
      · simp [Option.or, mapGet, hk]

theorem mapGet_buildMap (l : List (List Char × List Char)) (k : List Char) :
    mapGet (buildMap l) k = mapGet l.reverse k := by
  rw [buildMap, mapGet_buildMap_loop]
  cases mapGet l.reverse k with
  | none => simp [Option.or, mapGet]
  | some v => simp [Option.or]

theorem resolveIncludesF_no_marker {frags : List (List Char × List Char)}
    {visited : List (List Char)} {sql : List Char} (h : findSplit sql = none) :
    ∀ fuel, 1 ≤ fuel → resolveIncludesF fuel frags visited sql = some sql := by
  intro fuel hf
  obtain ⟨n, rfl⟩ : ∃ n, fuel = n + 1 := ⟨fuel - 1, by omega⟩
  rw [resolveIncludesF]
  simp [resolveStep, h]

theorem resolveIncludesF_out_no_marker :
    ∀ (fuel : Nat) {frags : List (List Char × List Char)}
      {visited : List (List Char)} {sql out : List Char},
      resolveIncludesF fuel frags visited sql = some out → findSplit out = none := by
  intro fuel
  induction fuel with
  | zero =>
    intro frags visited sql out h
    simp [resolveIncludesF] at h
  | succ n ih =>
    intro frags visited sql out h
    rw [resolveIncludesF] at h
    rw [resolveStep.eq_def] at h
    cases hfs : findSplit sql with
    | none =>
      rw [hfs] at h
      simp at h
      subst h
      exact hfs
    | some q =>
      rw [hfs] at h
      cases hpm : processMatches (fun refid c => resolveIncludesF n frags (refid :: visited) c)
          frags visited (scanAllF (sql.length + 1) sql) sql with
      | none => rw [hpm] at h; simp at h
      | some resolved =>
        rw [hpm] at h
        simp only [] at h
        by_cases hrm : (findSplit resolved).isSome = true
        · rw [if_pos hrm] at h
          exact ih h
        · rw [if_neg hrm] at h
          simp at h
          cases hfr : findSplit resolved with
          | none => rw [← h]; exact hfr
          | some _ => rw [hfr] at hrm; simp at hrm

theorem take_append_take {α : Type} (N : Nat) (A B : List α) :
    (A ++ B.take N).take N = (A ++ B).take N := by
  rw [List.take_append_eq_append_take, List.take_append_eq_append_take, List.take_take]
  have : min (N - A.length) N = N - A.length := by omega
  rw [this]

theorem lru_putAll_entries {K V : Type} [DecidableEq K] (val : K → V) (N : Nat) :
    ∀ (ks : List K) (acc : List (K × V)), ks.Nodup →
      (∀ k ∈ ks, ∀ p ∈ acc, p.1 ≠ k) → acc.length ≤ N →
      (LRUCache.putAll ⟨N, acc⟩ val ks).entries =
        (ks.reverse.map (fun k => (k, val k)) ++ acc).take N := by
  intro ks
  induction ks with
  | nil =>
    intro acc _ _ hlen
    simp [LRUCache.putAll, List.take_of_length_le hlen]
  | cons k ks ih =>
    intro acc hnd hfresh hlen
    have hfk : ∀ p ∈ acc, p.1 ≠ k := hfresh k (by simp)
    have hfilter : acc.filter (fun p => !decide (p.1 = k)) = acc := by
      rw [List.filter_eq_self]
      intro p hp
      simpa using hfk p hp
    have hstep : LRUCache.putAll (⟨N, acc⟩ : LRUCache K V) val (k :: ks) =
        LRUCache.putAll ⟨N, ((k, val k) :: acc).take N⟩ val ks := by
      simp [LRUCache.putAll, LRUCache.put, hfilter]
    rw [hstep]
    have hnd' : ks.Nodup := (List.nodup_cons.mp hnd).2
    have hknotin : k ∉ ks := (List.nodup_cons.mp hnd).1
    have hfresh' : ∀ j ∈ ks, ∀ p ∈ ((k, val k) :: acc).take N, p.1 ≠ j := by
      intro j hj p hp
      have hp' := List.take_subset _ _ hp
      rcases List.mem_cons.mp hp' with h1 | h2
      · subst h1
        intro heq
        simp at heq
        exact hknotin (by rw [heq]; exact hj)
      · exact hfresh j (by simp [hj]) p h2
    have hlen' : (((k, val k) :: acc).take N).length ≤ N := by
      simp [List.length_take]
    have := ih (((k, val k) :: acc).take N) hnd' hfresh' hlen'
    rw [this, take_append_take]
    congr 1
    simp

theorem lru_insert_overflow {K V : Type} [DecidableEq K] (val : K → V) (N : Nat)
    (k0 : K) (rest : List K) (hnd : (k0 :: rest).Nodup) (hlen : rest.length = N) :
    ((LRUCache.empty K V N).putAll val (k0 :: rest)).entries =
      rest.reverse.map (fun k => (k, val k)) := by
  have h0 := lru_putAll_entries val N (k0 :: rest) [] hnd
    (by intro k _ p hp; simp at hp) (by simp)
  have : (LRUCache.empty K V N) = (⟨N, []⟩ : LRUCache K V) := rfl
  rw [this, h0]
  have hlenmap : (rest.reverse.map (fun k => (k, val k))).length = N := by
    simp [hlen]
  rw [List.reverse_cons, List.map_append, List.append_nil]
  rw [← hlenmap, List.take_left]

/-! ### Claim theorems -/

set_option maxRecDepth 100000 in
/-- C1, counterexample: the fragment map of `docCircSplice` contains the
self-cycle `c ↦ <include refid="c"/>` and statement `s` reaches it, yet the
composed text is exactly `BOOM` and contains no circular-reference annotation
naming `c` — the surrounding text splices with the annotation into a new
include marker whose refid is the annotation itself, and a fragment declared
under that id replaces it.  So the claim as stated (for every fragment map
with a cycle, the returned text contains the annotation) is false. -/
theorem c1_counterexample :
    composeSql 10 docCircSplice (("s").data) = some (some (("BOOM").data)) ∧
    mapGet (extractSqlFragments docCircSplice) (("c").data) =
      some (includeMarker (("c").data)) ∧
    containsSub (circAnnot (("c").data)) (("BOOM").data) = false := by
  refine ⟨by decide, by decide, by decide⟩

/-- C1, amended: for every fragment map in which a plain id `c` (nonempty,
containing no quote, `<` or `$` characters) maps to an include marker
referencing `c` itself (a cycle of length one), resolving a statement body
`pre ++ <include refid="c"/> ++ post` whose context contains no `<`
terminates for every fuel ≥ 2 (the recursion depth the code actually needs)
and returns the text with the marker replaced by the circular-reference
annotation naming `c` — in particular the returned text contains that
annotation. -/
theorem c1_cycle_terminates_annotated {frags : List (List Char × List Char)}
    {c pre post : List Char} (hc : plainId c) (hpre : noLt pre) (hpost : noLt post)
    (hfrag : mapGet frags c = some (includeMarker c)) {fuel : Nat} (hfuel : 2 ≤ fuel) :
    resolveIncludesF fuel frags [] (pre ++ includeMarker c ++ post) =
        some (pre ++ circAnnot c ++ post) ∧
      containsSub (circAnnot c) (pre ++ circAnnot c ++ post) = true :=
  ⟨resolveIncludes_cycle_annot hc hpre hpost hfrag fuel hfuel,
   by simpa [containsSub] using @splitFirstOcc_isSome (circAnnot c) pre post⟩

set_option maxRecDepth 100000 in
/-- C1, witness: the amended theorem applied to the one-fragment map
`c ↦ <include refid="c"/>` and the body `select <include refid="c"/> from t`. -/
theorem c1_witness :
    resolveIncludesF 2 [((("c").data), includeMarker (("c").data))] []
        ((("select ").data) ++ includeMarker (("c").data) ++ ((" from t").data)) =
      some ((("select ").data) ++ circAnnot (("c").data) ++ ((" from t").data)) ∧
    containsSub (circAnnot (("c").data))
        ((("select ").data) ++ circAnnot (("c").data) ++ ((" from t").data)) = true :=
  c1_cycle_terminates_annotated (by decide) (by decide) (by decide) (by decide) (by decide)

set_option maxRecDepth 100000 in
/-- C2, counterexample: in `docNfSplice` the statement includes the
undeclared fragment id `m`, yet the composed text is exactly `BOOM` with no
`Fragment not found` annotation naming `m`, because the context splices with
the annotation into a new marker whose refid is the annotation text, and a
fragment declared under that id replaces it.  So the claim as stated is
false. -/
theorem c2_counterexample :
    composeSql 10 docNfSplice (("s").data) = some (some (("BOOM").data)) ∧
    mapGet (extractSqlFragments docNfSplice) (("m").data) = none ∧
    containsSub (notFoundAnnot (("m").data)) (("BOOM").data) = false := by
  refine ⟨by decide, by decide, by decide⟩

/-- C2, amended: for every fragment map in which the plain id `m` (nonempty,
no quote, `<` or `$` characters) is not declared, resolving a statement body
`pre ++ <include refid="m"/> ++ post` whose context contains no `<` returns
(for every fuel ≥ 1) the text with the marker replaced by the
`Fragment not found` annotation naming `m`, with `pre` and `post` — all the
other resolvable content — present unmodified around it. -/
theorem c2_missing_fragment_annotated {frags : List (List Char × List Char)}
    {m pre post : List Char} (hm : plainId m) (hpre : noLt pre) (hpost : noLt post)
    (hfrag : mapGet frags m = none) {fuel : Nat} (hfuel : 1 ≤ fuel) :
    resolveIncludesF fuel frags [] (pre ++ includeMarker m ++ post) =
        some (pre ++ notFoundAnnot m ++ post) ∧
      containsSub (notFoundAnnot m) (pre ++ notFoundAnnot m ++ post) = true :=
  ⟨resolveIncludes_missing_annot hm hpre hpost hfrag fuel hfuel,
   by simpa [containsSub] using @splitFirstOcc_isSome (notFoundAnnot m) pre post⟩

set_option maxRecDepth 100000 in
/-- C2, witness: the amended theorem applied to the empty fragment map and
the body `select <include refid="m"/> from t`. -/
theorem c2_witness :
    resolveIncludesF 1 [] []
        ((("select ").data) ++ includeMarker (("m").data) ++ ((" from t").data)) =
      some ((("select ").data) ++ notFoundAnnot (("m").data) ++ ((" from t").data)) ∧
    containsSub (notFoundAnnot (("m").data))
        ((("select ").data) ++ notFoundAnnot (("m").data) ++ ((" from t").data)) = true :=
  c2_missing_fragment_annotated (by decide) (by decide) (by decide) (by decide) (by decide)

set_option maxRecDepth 100000 in
/-- C3, counterexample: in `<select aid="x" id="s">B</select>` the id `x`
does not occur as the id of any select/insert/update/delete statement (the
only statement's id is `s`), yet `composeSql` for `x` returns `B`, not the
null outcome: the greedy `[^>]*` of the statement regex lets `id="x"` match
inside the attribute `aid="x"`.  So the claim as stated is false. -/
theorem c3_counterexample :
    (("x").data) ∉ declaredStatementIds docAid ∧
    declaredStatementIds docAid = [(("s").data)] ∧
    composeSql 5 docAid (("x").data) = some (some (("B").data)) ∧
    (some (some (("B").data)) : Option (Option (List Char))) ≠ some none := by
  refine ⟨by decide, by decide, by decide, by decide⟩

/-- C3, amended: for every document content and statement id for which the
statement-matching regex finds no select/insert/update/delete element with
that id — the code's notion of the id occurring, which is what actually
governs the outcome — `composeSql` returns the explicit `null` outcome,
never an exception (the total model returns by construction). -/
theorem c3_statement_not_found_null (fuel : Nat) (content statementId : List Char)
    (h : extractStatementContent content statementId = none) :
    composeSql fuel content statementId = some none := by
  simp [composeSql, h]

set_option maxRecDepth 100000 in
/-- C3, witness: a lookup for an id absent from `docPlain`. -/
theorem c3_witness :
    extractStatementContent docPlain (("missing").data) = none ∧
    composeSql 3 docPlain (("missing").data) = some none :=
  ⟨by decide, c3_statement_not_found_null 3 docPlain (("missing").data) (by decide)⟩

set_option maxRecDepth 100000 in
/-- C4, counterexample: in `docDollar` the statement body is exactly the
marker for fragment `a` whose content is `a $$ b`; the recursive expansion of
that content (with `a` in the visited set) is `a $$ b` itself, but the
composed result is `a $ b` — `String.prototype.replace` processes `$$` in the
replacement string — so the marker is not replaced by exactly the expanded
fragment content. -/
theorem c4_counterexample :
    composeSql 10 docDollar (("s").data) = some (some (("a $ b").data)) ∧
    resolveIncludesF 9 (extractSqlFragments docDollar) [(("a").data)]
        (("a $$ b").data) = some (("a $$ b").data) ∧
    (("a $ b").data) ≠ (("a $$ b").data) := by
  refine ⟨by decide, by decide, by decide⟩

/-- C4, amended: (i) for an unvisited refid bound to a nonempty fragment,
the replacement pass substitutes the recursive expansion computed with the
visited set extended by that id, splicing it at the marker's first occurrence
via JS replacement semantics; (ii) when the expanded text contains no `$`,
that splice is exactly the expanded text in place of the marker occurrence;
(iii) any string returned by `resolveIncludes` contains no include marker at
all, hence no marker of a resolvable fragment is silently left or dropped. -/
theorem c4_substitution_exact :
    (∀ (n : Nat) (frags : List (List Char × List Char)) (visited : List (List Char))
       (tag refid : List Char) (ms : List (List Char × List Char)) (resolved c : List Char),
       refid ∉ visited → mapGet frags refid = some c → c ≠ [] →
       processMatches (fun r cc => resolveIncludesF n frags (r :: visited) cc) frags visited
           ((tag, refid) :: ms) resolved =
         (resolveIncludesF n frags (refid :: visited) c).bind
           (fun e => processMatches (fun r cc => resolveIncludesF n frags (r :: visited) cc)
             frags visited ms (replaceFirstJS resolved tag e))) ∧
    (∀ (s tag e b a : List Char), (∀ x ∈ e, x ≠ '$') →
       splitFirstOcc tag s = some (b, a) → replaceFirstJS s tag e = b ++ e ++ a) ∧
    (∀ (fuel : Nat) (frags : List (List Char × List Char)) (visited : List (List Char))
       (sql out : List Char), resolveIncludesF fuel frags visited sql = some out →
       findSplit out = none) := by
  refine ⟨?_, ?_, ?_⟩
  · intro n frags visited tag refid ms resolved c hvis hget hne
    rw [processMatches, if_neg hvis, hget]
    simp only [Option.getD_some]
    rw [if_neg hne]
    cases hre : resolveIncludesF n frags (refid :: visited) c with
    | none => simp
    | some e => simp
  · intro s tag e b a hd hsp
    rw [replaceFirstJS.eq_def, hsp]
    show b ++ getSubstitution tag b a e ++ a = b ++ e ++ a
    rw [getSubstitution_eq_self _ _ _ hd]
  · intro fuel frags visited sql out h
    exact resolveIncludesF_out_no_marker fuel h

set_option maxRecDepth 100000 in
/-- C4, witness: the three parts instantiated on the one-fragment map
`a ↦ x` with the body being the marker for `a`. -/
theorem c4_witness :
    (processMatches
        (fun r cc => resolveIncludesF 1 [((("a").data), (("x").data))] (r :: []) cc)
        [((("a").data), (("x").data))] [] [(includeMarker (("a").data), (("a").data))]
        (includeMarker (("a").data)) =
      (resolveIncludesF 1 [((("a").data), (("x").data))] [(("a").data)] (("x").data)).bind
        (fun e => processMatches
          (fun r cc => resolveIncludesF 1 [((("a").data), (("x").data))] (r :: []) cc)
          [((("a").data), (("x").data))] [] [] (replaceFirstJS (includeMarker (("a").data))
            (includeMarker (("a").data)) e))) ∧
    (replaceFirstJS (includeMarker (("a").data)) (includeMarker (("a").data)) (("x").data) =
      [] ++ (("x").data) ++ []) ∧
    findSplit (("x").data) = none := by
  have h := c4_substitution_exact
  refine ⟨h.1 1 _ [] _ _ [] _ _ (by decide) (by decide) (by decide), ?_, ?_⟩
  · exact h.2.1 _ _ _ [] [] (by decide) (by decide)
  · exact h.2.2 1 [((("a").data), (("x").data))] [] (("x").data) (("x").data) (by decide)

set_option maxRecDepth 100000 in
/-- C5: the spec's nested-inclusion scenario — fragments `A = "x, y"`,
`B = <include refid="A"/>, z` and statement
`S = select <include refid="B"/> from t` — composes to exactly
`select x, y, z from t`. -/
theorem c5_nested_composition :
    composeSql 10 docNested (("S").data) =
      some (some (("select x, y, z from t").data)) := by
  decide

/-- C6: when reading the mapping document fails, `readFile` catches the error
and yields the empty string, and `composeSql` on it returns the explicit
`null` outcome for every statement id and any fuel; the model is a pure
function, so no other state is involved. -/
theorem c6_read_failure_null (fuel : Nat) (statementId : List Char) :
    composeSqlFromFile fuel none statementId = some none := rfl

set_option maxRecDepth 100000 in
/-- C7: fragment extraction maps every id to the value at its last
declaration in document order — looking up the built map equals looking up
the reversed declaration list (whose first hit is the last declaration) — and
no error is raised (extraction is total); in particular in `docDupIds`, where
id `a` is declared twice, the extracted content is that of the second
declaration. -/
theorem c7_duplicate_ids_last_wins :
    (∀ (content k : List Char),
      mapGet (extractSqlFragments content) k = mapGet (scanSqlDecls content).reverse k) ∧
    mapGet (extractSqlFragments docDupIds) (("a").data) = some (("second").data) := by
  constructor
  · intro content k
    exact mapGet_buildMap _ _
  · decide

/-- C8: comment stripping preserves the number of newline characters for
every input — each comment is replaced by exactly as many newlines as it
contained, and the rest of the text is untouched — so later line-based
lookups stay aligned. -/
theorem c8_comment_stripping_preserves_line_count (cs : List Char) :
    countNl (removeXmlComments cs) = countNl cs :=
  removeXmlCommentsF_countNl (cs.length + 1) cs

/-- C9: for an LRU cache of capacity `N` (model written from the spec, §4.1,
since the implementation is not under `src/`), inserting `N + 1` distinct
keys with no intervening reads leaves `size = N`, evicts the first-inserted
(least recently used) key, and keeps every later key present. -/
theorem c9_lru_eviction {K V : Type} [DecidableEq K] (val : K → V) (N : Nat)
    (k0 : K) (rest : List K) (hnd : (k0 :: rest).Nodup) (hlen : rest.length = N) :
    ((LRUCache.empty K V N).putAll val (k0 :: rest)).size = N ∧
    ((LRUCache.empty K V N).putAll val (k0 :: rest)).getVal k0 = none ∧
    ∀ k ∈ rest, (((LRUCache.empty K V N).putAll val (k0 :: rest)).getVal k).isSome = true := by
  have hent := lru_insert_overflow val N k0 rest hnd hlen
  have hknotin : k0 ∉ rest := (List.nodup_cons.mp hnd).1
  refine ⟨?_, ?_, ?_⟩
  · simp [LRUCache.size, hent, hlen]
  · rw [LRUCache.getVal, hent]
    rw [List.find?_eq_none.mpr]
    · rfl
    · intro p hp
      simp at hp
      obtain ⟨k, hk, hpk⟩ := hp
      simp [← hpk]
      intro heq
      exact hknotin (by rw [heq] at hk; exact hk)
  · intro k hk
    rw [LRUCache.getVal, hent]
    have hmem : (k, val k) ∈ rest.reverse.map (fun j => (j, val j)) :=
      List.mem_map.mpr ⟨k, List.mem_reverse.mpr hk, rfl⟩
    have hsome : (List.find? (fun p => decide (p.1 = k))
        (rest.reverse.map (fun j => (j, val j)))).isSome = true :=
      List.find?_isSome.mpr ⟨(k, val k), hmem, by simp⟩
    cases hf : List.find? (fun p => decide (p.1 = k))
        (rest.reverse.map (fun j => (j, val j))) with
    | none => rw [hf] at hsome; simp at hsome
    | some p => rfl

/-- C9, witness: capacity-2 cache, keys `k1, k2, k3` inserted in order with
no reads between inserts: `k1` is evicted, `k2` and `k3` remain. -/
theorem c9_witness :
    ((LRUCache.empty (List Char) (List Char) 2).putAll (fun k => k)
        [(("k1").data), (("k2").data), (("k3").data)]).size = 2 ∧
    ((LRUCache.empty (List Char) (List Char) 2).putAll (fun k => k)
        [(("k1").data), (("k2").data), (("k3").data)]).getVal (("k1").data) = none ∧
    ∀ k ∈ [(("k2").data), (("k3").data)],
      (((LRUCache.empty (List Char) (List Char) 2).putAll (fun k => k)
        [(("k1").data), (("k2").data), (("k3").data)]).getVal k).isSome = true :=
  c9_lru_eviction (fun k => k) 2 (("k1").data) [(("k2").data), (("k3").data)]
    (by decide) (by decide)

set_option maxRecDepth 100000 in
/-- C10, counterexample: statement `s` of `docEmptyBody` exists and its body
(the empty string) contains no inclusion markers, yet `composeSql` returns
`null` rather than the body, because `if (!statementContent)` treats the
empty string as absent.  So the claim's "composing a statement without
inclusions returns its comment-stripped, trimmed body as-is" fails on empty
bodies. -/
theorem c10_counterexample :
    extractStatementContent docEmptyBody (("s").data) = some [] ∧
    composeSql 5 docEmptyBody (("s").data) = some none ∧
    (some none : Option (Option (List Char))) ≠ some (some []) := by
  refine ⟨by decide, by decide, by decide⟩

/-- C10, amended: `resolveIncludes` is the identity on marker-free text for
any fragment map, visited set and fuel ≥ 1; consequently composing a
statement whose extracted (comment-stripped, trimmed) body is non-empty and
contains no inclusion marker returns that body as-is.  (An empty body is
returned as the `null` outcome instead — the counterexample's correction.) -/
theorem c10_identity_on_marker_free :
    (∀ (frags : List (List Char × List Char)) (visited : List (List Char))
       (sql : List Char) (fuel : Nat), findSplit sql = none → 1 ≤ fuel →
       resolveIncludesF fuel frags visited sql = some sql) ∧
    (∀ (content statementId body : List Char) (fuel : Nat),
       extractStatementContent content statementId = some body → body ≠ [] →
       findSplit body = none → 1 ≤ fuel →
       composeSql fuel content statementId = some (some body)) := by
  constructor
  · intro frags visited sql fuel h hf
    exact resolveIncludesF_no_marker h fuel hf
  · intro content statementId body fuel hex hne hbody hf
    simp [composeSql, hex, hne, resolveIncludesF_no_marker hbody fuel hf]

set_option maxRecDepth 100000 in
/-- C10, witness: the identity on the marker-free body of `docPlain`. -/
theorem c10_witness :
    resolveIncludesF 1 [] [] (("select 1 from t").data) =
        some (("select 1 from t").data) ∧
    composeSql 1 docPlain (("s").data) = some (some (("select 1 from t").data)) :=
  ⟨c10_identity_on_marker_free.1 [] [] (("select 1 from t").data) 1 (by decide) (by decide),
   c10_identity_on_marker_free.2 docPlain (("s").data) (("select 1 from t").data) 1
     (by decide) (by decide) (by decide) (by decide)⟩
